import Mathlib

/-!
Shallow embedding of the PedalBoard Arduino sketch (src/PedalBoard.ino).

The sketch polls NUM_PEDALS digital inputs, detects edges against a cached
previous-read array, and dispatches each edge to one of two handler slots
(function pointers) bound once during setup: either the USB-keyboard pair or
the MIDI pair.  Side effects (key presses, MIDI packets, LED writes) are
modelled as an emitted list of actions; pin reads are modelled as a function
from pin number to the value read.
-/

namespace PedalBoard

/-- Arduino digital levels. -/
def LOW : Nat := 0

def HIGH : Nat := 1

/-- Mode constants from the sketch. -/
def MIDI_MODE : Nat := 1

def KEYB_MODE : Nat := 2

/-- Number of pedals (one octave plus the next C). -/
abbrev NUM_PEDALS : Nat := 13

/-- MIDI channel constant from the sketch. -/
def midiChannel : Nat := 1

/-- Fixed note velocity, hard coded in the sketch; in [0, 127]. -/
def midiVelocity : Nat := 64

/-- Input pin for each pedal: pins 0 through 12. -/
def pedalInputsList : List Nat := [0, 1, 2, 3, 4, 5, 6, 7, 8, 9, 10, 11, 12]

def pedalInputs (i : Fin NUM_PEDALS) : Nat := pedalInputsList.getD i.val 0

/-- Pitch constants from the MIDIUSB library header pitchToNote.h. -/
def pitchC3 : Nat := 60

def pitchD3b : Nat := 61

def pitchD3 : Nat := 62

def pitchE3b : Nat := 63

def pitchE3 : Nat := 64

def pitchF3 : Nat := 65

def pitchG3b : Nat := 66

def pitchG3 : Nat := 67

def pitchA3b : Nat := 68

def pitchA3 : Nat := 69

def pitchB3b : Nat := 70

def pitchB3 : Nat := 71

/-- MIDI pitch assigned to each pedal; note that pedal 0 and pedal 12 are both
assigned pitchC3, exactly as in the sketch source. -/
def notePitchesList : List Nat :=
  [pitchC3, pitchD3b, pitchD3, pitchE3b, pitchE3,
   pitchF3, pitchG3b, pitchG3, pitchA3b, pitchA3,
   pitchB3b, pitchB3, pitchC3]

def notePitches (i : Fin NUM_PEDALS) : Nat := notePitchesList.getD i.val 0

/-- Key code constants from the Arduino Keyboard library. -/
def KEY_LEFT_CTRL : Nat := 0x80

def KEY_LEFT_SHIFT : Nat := 0x81

def KEY_LEFT_ALT : Nat := 0x82

def KEY_TAB : Nat := 0xB3

def KEY_F3 : Nat := 0xC4

def KEY_F4 : Nat := 0xC5

def KEY_F5 : Nat := 0xC6

def KEY_F6 : Nat := 0xC7

def KEY_F7 : Nat := 0xC8

/-- Keyboard key code assigned to each pedal; character literals in the sketch
are modelled by their ASCII codes. -/
def pedalKeysList : List Nat :=
  [KEY_LEFT_CTRL, KEY_LEFT_ALT, KEY_LEFT_SHIFT, KEY_TAB,
   101, 102, 103, 104,
   KEY_F3, KEY_F4, KEY_F5, KEY_F6, KEY_F7]

def pedalKeys (i : Fin NUM_PEDALS) : Nat := pedalKeysList.getD i.val 0

/-- Analog pin numbers on the 32u4 boards the sketch targets. -/
def A0 : Nat := 18

def A1 : Nat := 19

def A5 : Nat := 23

def selectPin : Nat := A5

def greenLED : Nat := A0

def redLED : Nat := A1

/-- The midiEventPacket_t struct of the MIDIUSB library. -/
structure MidiEventPacket where
  header : Nat
  byte1 : Nat
  byte2 : Nat
  byte3 : Nat
deriving DecidableEq

/-- Observable side effects of the sketch: USB keyboard calls, MIDI packets,
LED writes and library initialization. -/
inductive Action where
  | keyPress (key : Nat)
  | keyRelease (key : Nat)
  | midiSend (packet : MidiEventPacket)
  | midiFlush
  | digitalWrite (pin : Nat) (value : Nat)
  | keyboardBegin
deriving DecidableEq

/-- The four handler functions the sketch can store in its two function
pointer slots. -/
inductive HandlerTag where
  | keyboardDown
  | keyboardUp
  | midiDown
  | midiUp
deriving DecidableEq

/-- Global mutable state of the sketch: the current mode, the cached previous
pedal reads, and the two handler function pointers (NULL modelled as none). -/
structure BoardState where
  currentMode : Nat
  pedalValues : Fin NUM_PEDALS → Nat
  buttonDownHandler : Option HandlerTag
  buttonUpHandler : Option HandlerTag

/-- State at global initialization: KEYB_MODE, all pedal reads cached as 1
(pedal up, INPUT_PULLUP wiring), both handler pointers NULL. -/
def initialState : BoardState :=
  { currentMode := KEYB_MODE
    pedalValues := fun _ => 1
    buttonDownHandler := none
    buttonUpHandler := none }

/-- startNote: send a note-on MIDI packet, flush, bracketed by red LED
writes. -/
def startNote (pitch : Nat) : List Action :=
  let velocity := midiVelocity
  let noteOn : MidiEventPacket := ⟨0x09, Nat.lor 0x90 midiChannel, pitch, velocity⟩
  [Action.digitalWrite redLED HIGH, Action.midiSend noteOn, Action.midiFlush,
   Action.digitalWrite redLED LOW]

/-- endNote: send a note-off MIDI packet with velocity 0, flush, bracketed by
red LED writes. -/
def endNote (pitch : Nat) : List Action :=
  let velocity := 0
  let noteOff : MidiEventPacket := ⟨0x08, Nat.lor 0x80 midiChannel, pitch, velocity⟩
  [Action.digitalWrite redLED HIGH, Action.midiSend noteOff, Action.midiFlush,
   Action.digitalWrite redLED LOW]

def handleKeyboardDown (buttonNum : Fin NUM_PEDALS) : List Action :=
  [Action.keyPress (pedalKeys buttonNum)]

def handleKeyboardUp (buttonNum : Fin NUM_PEDALS) : List Action :=
  [Action.keyRelease (pedalKeys buttonNum)]

def handleMidiDown (buttonNum : Fin NUM_PEDALS) : List Action :=
  startNote (notePitches buttonNum)

def handleMidiUp (buttonNum : Fin NUM_PEDALS) : List Action :=
  endNote (notePitches buttonNum)

/-- Invoke the handler function stored in a slot. -/
def runHandler : HandlerTag → Fin NUM_PEDALS → List Action
  | HandlerTag.keyboardDown, i => handleKeyboardDown i
  | HandlerTag.keyboardUp, i => handleKeyboardUp i
  | HandlerTag.midiDown, i => handleMidiDown i
  | HandlerTag.midiUp, i => handleMidiUp i

/-- setup: configure pins, light both LEDs, read the mode selector once, set
the mode and its LED pattern, and bind exactly one handler pair.  The value
read from the selector pin is passed in; the emitted actions are the LED
writes and the keyboard initialization. -/
def setup (selectValue : Nat) : BoardState × List Action :=
  let bootActs := [Action.digitalWrite greenLED HIGH, Action.digitalWrite redLED HIGH]
  let modePart :=
    if selectValue ≠ LOW then
      (MIDI_MODE, [Action.digitalWrite greenLED HIGH, Action.digitalWrite redLED LOW])
    else
      (KEYB_MODE, [Action.digitalWrite greenLED LOW, Action.digitalWrite redLED HIGH])
  let currentMode := modePart.1
  if currentMode = KEYB_MODE then
    ({ initialState with
        currentMode := currentMode
        buttonDownHandler := some HandlerTag.keyboardDown
        buttonUpHandler := some HandlerTag.keyboardUp },
     bootActs ++ modePart.2 ++ [Action.keyboardBegin])
  else
    ({ initialState with
        currentMode := currentMode
        buttonDownHandler := some HandlerTag.midiDown
        buttonUpHandler := some HandlerTag.midiUp },
     bootActs ++ modePart.2)

/-- Body of one iteration of the for loop inside loop(): read pedal i,
dispatch a handler if the read differs from the cached value, then overwrite
the cached value with the read. -/
def pedalIteration (read : Nat → Nat) (s : BoardState) (i : Fin NUM_PEDALS) :
    BoardState × List Action :=
  let pedalValue := read (pedalInputs i)
  let acts :=
    if s.pedalValues i ≠ pedalValue then
      if pedalValue = 0 then
        match s.buttonDownHandler with
        | some h => runHandler h i
        | none => []
      else
        match s.buttonUpHandler with
        | some h => runHandler h i
        | none => []
    else []
  ({ s with pedalValues := Function.update s.pedalValues i pedalValue }, acts)

/-- The for loop of loop(), running over a given list of pedal indices. -/
def loopFrom (read : Nat → Nat) (s : BoardState) : List (Fin NUM_PEDALS) →
    BoardState × List Action
  | [] => (s, [])
  | i :: rest =>
    let p := pedalIteration read s i
    let q := loopFrom read p.1 rest
    (q.1, p.2 ++ q.2)

/-- One full poll cycle: the loop() function of the sketch, with pin reads
supplied as a function from pin number to read value. -/
def loop (read : Nat → Nat) (s : BoardState) : BoardState × List Action :=
  loopFrom read s (List.finRange NUM_PEDALS)

/-- Run loop() over a sequence of poll cycles, each with its own pin reads,
collecting the emitted actions in order. -/
def run (s : BoardState) : List (Nat → Nat) → BoardState × List Action
  | [] => (s, [])
  | r :: rs =>
    let p := loop r s
    let q := run p.1 rs
    (q.1, p.2 ++ q.2)

/-- Direction of a pedal transition. -/
inductive Direction where
  | down
  | up
deriving DecidableEq

/-- A transition event: pedal index plus direction. -/
structure Event where
  idx : Fin NUM_PEDALS
  dir : Direction
deriving DecidableEq

/-- Edge detection for one pedal, read off the comparison in loop(): an event
is produced exactly when the read differs from the cached value, direction
down exactly when the new read is 0. -/
def eventFor (prev : Fin NUM_PEDALS → Nat) (read : Nat → Nat) (i : Fin NUM_PEDALS) :
    Option Event :=
  let v := read (pedalInputs i)
  if prev i ≠ v then some ⟨i, if v = 0 then Direction.down else Direction.up⟩ else none

/-- All transition events of one poll cycle, in pedal-index order. -/
def cycleEvents (prev : Fin NUM_PEDALS → Nat) (read : Nat → Nat) : List Event :=
  (List.finRange NUM_PEDALS).filterMap (eventFor prev read)

/-- The mode dispatcher: route an event to the handler slot matching its
direction; an unbound slot drops the event. -/
def dispatch (down up : Option HandlerTag) (e : Event) : List Action :=
  match e.dir with
  | Direction.down =>
    match down with
    | some h => runHandler h e.idx
    | none => []
  | Direction.up =>
    match up with
    | some h => runHandler h e.idx
    | none => []

/-- The per-cycle event lists of a whole run. -/
def runEvents (s : BoardState) : List (Nat → Nat) → List (List Event)
  | [] => []
  | r :: rs => cycleEvents s.pedalValues r :: runEvents (loop r s).1 rs

lemma loopFrom_handlers (read : Nat → Nat) (l : List (Fin NUM_PEDALS)) :
    ∀ s : BoardState,
      (loopFrom read s l).1.buttonDownHandler = s.buttonDownHandler ∧
      (loopFrom read s l).1.buttonUpHandler = s.buttonUpHandler ∧
      (loopFrom read s l).1.currentMode = s.currentMode := by
  induction l with
  | nil => intro s; exact ⟨rfl, rfl, rfl⟩
  | cons i rest ih =>
    intro s
    simpa only [loopFrom] using ih (pedalIteration read s i).1

lemma loop_handlers (read : Nat → Nat) (s : BoardState) :
    (loop read s).1.buttonDownHandler = s.buttonDownHandler ∧
    (loop read s).1.buttonUpHandler = s.buttonUpHandler ∧
    (loop read s).1.currentMode = s.currentMode :=
  loopFrom_handlers read (List.finRange NUM_PEDALS) s

lemma loopFrom_pedalValues (read : Nat → Nat) (l : List (Fin NUM_PEDALS)) :
    ∀ (s : BoardState) (j : Fin NUM_PEDALS),
      (loopFrom read s l).1.pedalValues j =
        if j ∈ l then read (pedalInputs j) else s.pedalValues j := by
  induction l with
  | nil => intro s j; simp [loopFrom]
  | cons i rest ih =>
    intro s j
    simp only [loopFrom]
    rw [ih]
    by_cases hjr : j ∈ rest
    · simp [hjr]
    · by_cases hji : j = i
      · subst hji
        simp [hjr, pedalIteration]
      · simp [hjr, hji, pedalIteration, Function.update_noteq hji]

lemma loop_pedalValues (read : Nat → Nat) (s : BoardState) (j : Fin NUM_PEDALS) :
    (loop read s).1.pedalValues j = read (pedalInputs j) := by
  simp [loop, loopFrom_pedalValues, List.mem_finRange]

lemma eventFor_eq_some (prev : Fin NUM_PEDALS → Nat) (read : Nat → Nat)
    (i : Fin NUM_PEDALS) (e : Event) :
    eventFor prev read i = some e ↔
      (prev i ≠ read (pedalInputs i) ∧
       e = ⟨i, if read (pedalInputs i) = 0 then Direction.down else Direction.up⟩) := by
  unfold eventFor
  by_cases hv : prev i ≠ read (pedalInputs i)
  · rw [if_pos hv]
    constructor
    · intro h
      exact ⟨hv, ((Option.some.injEq _ _).mp h).symm⟩
    · rintro ⟨-, rfl⟩
      rfl
  · rw [if_neg hv]
    constructor
    · intro h
      exact Option.noConfusion h
    · rintro ⟨hne, -⟩
      exact absurd hne hv

lemma eventFor_eq_none (prev : Fin NUM_PEDALS → Nat) (read : Nat → Nat)
    (i : Fin NUM_PEDALS) :
    eventFor prev read i = none ↔ prev i = read (pedalInputs i) := by
  unfold eventFor
  by_cases hv : prev i ≠ read (pedalInputs i)
  · rw [if_pos hv]
    simp [hv]
  · rw [if_neg hv]
    simp [not_not.mp hv]

lemma eventFor_idx (prev : Fin NUM_PEDALS → Nat) (read : Nat → Nat)
    (i : Fin NUM_PEDALS) (e : Event) (h : eventFor prev read i = some e) :
    e.idx = i := by
  rcases (eventFor_eq_some prev read i e).mp h with ⟨-, rfl⟩
  rfl

lemma pedalIteration_trace (read : Nat → Nat) (s : BoardState) (i : Fin NUM_PEDALS) :
    (pedalIteration read s i).2 =
      (eventFor s.pedalValues read i).toList.flatMap
        (dispatch s.buttonDownHandler s.buttonUpHandler) := by
  simp only [pedalIteration, eventFor]
  by_cases hv : s.pedalValues i ≠ read (pedalInputs i)
  · rw [if_pos hv, if_pos hv]
    by_cases h0 : read (pedalInputs i) = 0
    · rw [if_pos h0, if_pos h0]
      cases s.buttonDownHandler <;> simp [dispatch]
    · rw [if_neg h0, if_neg h0]
      cases s.buttonUpHandler <;> simp [dispatch]
  · rw [if_neg hv, if_neg hv]
    simp

lemma loopFrom_trace (read : Nat → Nat) (l : List (Fin NUM_PEDALS)) (hnd : l.Nodup) :
    ∀ s : BoardState,
      (loopFrom read s l).2 =
        (l.filterMap (eventFor s.pedalValues read)).flatMap
          (dispatch s.buttonDownHandler s.buttonUpHandler) := by
  induction l with
  | nil => intro s; simp [loopFrom]
  | cons i rest ih =>
    intro s
    have hir : i ∉ rest := (List.nodup_cons.mp hnd).1
    have hndr : rest.Nodup := (List.nodup_cons.mp hnd).2
    simp only [loopFrom]
    rw [ih hndr, pedalIteration_trace]
    have hpv : ∀ j ∈ rest,
        eventFor (pedalIteration read s i).1.pedalValues read j =
          eventFor s.pedalValues read j := by
      intro j hj
      have hji : j ≠ i := fun h => hir (h ▸ hj)
      unfold eventFor
      simp [pedalIteration, Function.update_noteq hji]
    have hdh : (pedalIteration read s i).1.buttonDownHandler = s.buttonDownHandler := rfl
    have huh : (pedalIteration read s i).1.buttonUpHandler = s.buttonUpHandler := rfl
    rw [List.filterMap_congr hpv, hdh, huh, List.filterMap_cons]
    cases h : eventFor s.pedalValues read i with
    | none => simp
    | some e => simp [List.flatMap_cons]

/-- The loop body refines edge detection followed by dispatch: the actions of
one poll cycle are exactly the per-event handler outputs, concatenated in
event order. -/
lemma loop_trace (read : Nat → Nat) (s : BoardState) :
    (loop read s).2 =
      (cycleEvents s.pedalValues read).flatMap
        (dispatch s.buttonDownHandler s.buttonUpHandler) :=
  loopFrom_trace read (List.finRange NUM_PEDALS) (List.nodup_finRange NUM_PEDALS) s

lemma mem_cycleEvents (prev : Fin NUM_PEDALS → Nat) (read : Nat → Nat) (e : Event) :
    e ∈ cycleEvents prev read ↔
      (prev e.idx ≠ read (pedalInputs e.idx) ∧
       e.dir = (if read (pedalInputs e.idx) = 0 then Direction.down else Direction.up)) := by
  unfold cycleEvents
  rw [List.mem_filterMap]
  constructor
  · rintro ⟨j, -, hj⟩
    rcases (eventFor_eq_some prev read j e).mp hj with ⟨hv, rfl⟩
    exact ⟨hv, rfl⟩
  · rintro ⟨hv, hd⟩
    refine ⟨e.idx, List.mem_finRange e.idx, ?_⟩
    rw [eventFor_eq_some]
    refine ⟨hv, ?_⟩
    cases e with
    | mk i d => exact congrArg (Event.mk i) hd

lemma filterMap_eventFor_not_mem (prev : Fin NUM_PEDALS → Nat) (read : Nat → Nat)
    (i : Fin NUM_PEDALS) (l : List (Fin NUM_PEDALS)) (hi : i ∉ l) :
    (l.filterMap (eventFor prev read)).filter (fun e => decide (e.idx = i)) = [] := by
  induction l with
  | nil => simp
  | cons j rest ih =>
    have hji : j ≠ i := fun h => hi (h ▸ List.mem_cons_self j rest)
    have hir : i ∉ rest := fun h => hi (List.mem_cons_of_mem j h)
    rw [List.filterMap_cons]
    cases h : eventFor prev read j with
    | none => exact ih hir
    | some e =>
      have hidx : e.idx = j := eventFor_idx prev read j e h
      have hne : ¬ (e.idx = i) := by rw [hidx]; exact hji
      rw [List.filter_cons]
      simp only [hne, decide_False]
      exact ih hir

lemma filter_idx_filterMap (prev : Fin NUM_PEDALS → Nat) (read : Nat → Nat)
    (i : Fin NUM_PEDALS) (l : List (Fin NUM_PEDALS)) (hnd : l.Nodup) (hi : i ∈ l) :
    (l.filterMap (eventFor prev read)).filter (fun e => decide (e.idx = i)) =
      (eventFor prev read i).toList := by
  induction l with
  | nil => cases hi
  | cons j rest ih =>
    have hjr : j ∉ rest := (List.nodup_cons.mp hnd).1
    have hndr : rest.Nodup := (List.nodup_cons.mp hnd).2
    rw [List.filterMap_cons]
    by_cases hji : j = i
    · have hir : i ∉ rest := by rw [← hji]; exact hjr
      cases h : eventFor prev read j with
      | none =>
        rw [filterMap_eventFor_not_mem prev read i rest hir, ← hji, h]
        rfl
      | some e =>
        have hidx : e.idx = j := eventFor_idx prev read j e h
        have heq : e.idx = i := by rw [hidx]; exact hji
        rw [List.filter_cons]
        simp only [heq, decide_True]
        rw [filterMap_eventFor_not_mem prev read i rest hir, ← hji, h]
        rfl
    · have hir : i ∈ rest := by
        rcases List.mem_cons.mp hi with h1 | h2
        · exact absurd h1.symm hji
        · exact h2
      cases h : eventFor prev read j with
      | none => exact ih hndr hir
      | some e =>
        have hidx : e.idx = j := eventFor_idx prev read j e h
        have hne : ¬ (e.idx = i) := by rw [hidx]; exact hji
        rw [List.filter_cons]
        simp only [hne, decide_False]
        exact ih hndr hir

lemma filter_idx_cycleEvents (prev : Fin NUM_PEDALS → Nat) (read : Nat → Nat)
    (i : Fin NUM_PEDALS) :
    (cycleEvents prev read).filter (fun e => decide (e.idx = i)) =
      (eventFor prev read i).toList := by
  unfold cycleEvents
  exact filter_idx_filterMap prev read i (List.finRange NUM_PEDALS)
    (List.nodup_finRange NUM_PEDALS) (List.mem_finRange i)

lemma run_handlers (rs : List (Nat → Nat)) : ∀ s : BoardState,
    (run s rs).1.buttonDownHandler = s.buttonDownHandler ∧
    (run s rs).1.buttonUpHandler = s.buttonUpHandler := by
  induction rs with
  | nil => intro s; exact ⟨rfl, rfl⟩
  | cons r rest ih =>
    intro s
    simp only [run]
    refine ⟨?_, ?_⟩
    · rw [(ih (loop r s).1).1, (loop_handlers r s).1]
    · rw [(ih (loop r s).1).2, (loop_handlers r s).2.1]

lemma map_idx_filterMap (prev : Fin NUM_PEDALS → Nat) (read : Nat → Nat)
    (l : List (Fin NUM_PEDALS)) :
    (l.filterMap (eventFor prev read)).map Event.idx =
      l.filter (fun i => decide (prev i ≠ read (pedalInputs i))) := by
  induction l with
  | nil => rfl
  | cons j rest ih =>
    rw [List.filterMap_cons, List.filter_cons]
    by_cases hv : prev j ≠ read (pedalInputs j)
    · have h := (eventFor_eq_some prev read j
        ⟨j, if read (pedalInputs j) = 0 then Direction.down else Direction.up⟩).mpr
        ⟨hv, rfl⟩
      rw [h]
      simp [hv, ih]
    · have h := (eventFor_eq_none prev read j).mpr (not_not.mp hv)
      rw [h]
      simp [hv, ih]

lemma runEvents_not_mem (i : Fin NUM_PEDALS) (c : Nat) (rs : List (Nat → Nat)) :
    ∀ s : BoardState, s.pedalValues i = c →
      (∀ r2 ∈ rs, r2 (pedalInputs i) = c) →
      ∀ evs ∈ runEvents s rs, ∀ d : Direction, (⟨i, d⟩ : Event) ∉ evs := by
  induction rs with
  | nil =>
    intro s _ _ evs hevs
    cases hevs
  | cons r2 rest ih =>
    intro s hs hconst evs hevs d hmem
    have hr2 : r2 (pedalInputs i) = c := hconst r2 (List.mem_cons_self r2 rest)
    rcases List.mem_cons.mp hevs with h1 | h2
    · subst h1
      have := ((mem_cycleEvents s.pedalValues r2 ⟨i, d⟩).mp hmem).1
      exact this (by rw [hs, hr2])
    · have hs2 : (loop r2 s).1.pedalValues i = c := by
        rw [loop_pedalValues, hr2]
      have hconst2 : ∀ r3 ∈ rest, r3 (pedalInputs i) = c := fun r3 h3 =>
        hconst r3 (List.mem_cons_of_mem r2 h3)
      exact ih (loop r2 s).1 hs2 hconst2 evs h2 d hmem

/-- C1: in every poll cycle, a transition event is produced for pedal i if
and only if the current pin read of pedal i differs from its cached previous
read, the direction is Down exactly when the new read is 0 and Up otherwise,
and the loop dispatches exactly these events to the handler slots. -/
theorem c1_edge_detection_iff (s : BoardState) (read : Nat → Nat) (i : Fin NUM_PEDALS) :
    ((loop read s).2 =
      (cycleEvents s.pedalValues read).flatMap
        (dispatch s.buttonDownHandler s.buttonUpHandler)) ∧
    ((∃ d : Direction, (⟨i, d⟩ : Event) ∈ cycleEvents s.pedalValues read) ↔
      s.pedalValues i ≠ read (pedalInputs i)) ∧
    (∀ d : Direction, (⟨i, d⟩ : Event) ∈ cycleEvents s.pedalValues read ↔
      (s.pedalValues i ≠ read (pedalInputs i) ∧
       d = (if read (pedalInputs i) = 0 then Direction.down else Direction.up))) := by
  refine ⟨loop_trace read s, ⟨?_, ?_⟩, ?_⟩
  · rintro ⟨d, hd⟩
    exact ((mem_cycleEvents s.pedalValues read ⟨i, d⟩).mp hd).1
  · intro hv
    exact ⟨_, (mem_cycleEvents s.pedalValues read
      ⟨i, if read (pedalInputs i) = 0 then Direction.down else Direction.up⟩).mpr ⟨hv, rfl⟩⟩
  · intro d
    exact mem_cycleEvents s.pedalValues read ⟨i, d⟩

/-- C2: after a poll cycle the cached previous state of every pedal equals
the read taken in that cycle, and hence the following cycle reports exactly
one event for pedal i when its read changed and none when it did not. -/
theorem c2_cache_always_updated (s : BoardState) (r1 r2 : Nat → Nat) (i : Fin NUM_PEDALS) :
    ((loop r1 s).1.pedalValues i = r1 (pedalInputs i)) ∧
    ((cycleEvents (loop r1 s).1.pedalValues r2).countP (fun e => decide (e.idx = i)) =
      if r1 (pedalInputs i) = r2 (pedalInputs i) then 0 else 1) := by
  refine ⟨loop_pedalValues r1 s i, ?_⟩
  rw [List.countP_eq_length_filter, filter_idx_cycleEvents]
  by_cases h : r1 (pedalInputs i) = r2 (pedalInputs i)
  · rw [if_pos h]
    have he : eventFor (loop r1 s).1.pedalValues r2 i = none :=
      (eventFor_eq_none _ _ _).mpr (by rw [loop_pedalValues]; exact h)
    rw [he]
    rfl
  · rw [if_neg h]
    have hv : (loop r1 s).1.pedalValues i ≠ r2 (pedalInputs i) := by
      rw [loop_pedalValues]; exact h
    have he := (eventFor_eq_some (loop r1 s).1.pedalValues r2 i
      ⟨i, if r2 (pedalInputs i) = 0 then Direction.down else Direction.up⟩).mpr ⟨hv, rfl⟩
    rw [he]
    rfl

/-- C3: setup binds exactly one handler pair, the Keyboard pair when the
boot-time selector read is LOW and the MIDI pair otherwise, never a mixed
pair and never an empty slot; and no number of loop iterations ever changes
either handler slot. -/
theorem c3_one_handler_pair (v : Nat) (s : BoardState) (rs : List (Nat → Nat)) :
    (((setup v).1.buttonDownHandler, (setup v).1.buttonUpHandler) =
      if v = LOW then (some HandlerTag.keyboardDown, some HandlerTag.keyboardUp)
      else (some HandlerTag.midiDown, some HandlerTag.midiUp)) ∧
    ((run s rs).1.buttonDownHandler = s.buttonDownHandler ∧
     (run s rs).1.buttonUpHandler = s.buttonUpHandler) := by
  refine ⟨?_, run_handlers rs s⟩
  by_cases hv : v = LOW
  · rw [if_pos hv]
    subst hv
    rfl
  · rw [if_neg hv]
    have hv0 : ¬ v = 0 := hv
    simp [setup, LOW, MIDI_MODE, KEYB_MODE, hv0]

/-- C4: in MIDI mode a Down event for pedal i emits exactly one note-on
packet with status nibble 0x9, channel nibble midiChannel, pitch
notePitches i and velocity midiVelocity, immediately followed by a flush,
and the matching Up event emits exactly one note-off packet with status
nibble 0x8, the same channel and pitch, and velocity 0, followed by a
flush. -/
theorem c4_midi_note_messages (i : Fin NUM_PEDALS) :
    (dispatch (some HandlerTag.midiDown) (some HandlerTag.midiUp) ⟨i, Direction.down⟩ =
      [Action.digitalWrite redLED HIGH,
       Action.midiSend ⟨0x09, Nat.lor 0x90 midiChannel, notePitches i, midiVelocity⟩,
       Action.midiFlush, Action.digitalWrite redLED LOW]) ∧
    (dispatch (some HandlerTag.midiDown) (some HandlerTag.midiUp) ⟨i, Direction.up⟩ =
      [Action.digitalWrite redLED HIGH,
       Action.midiSend ⟨0x08, Nat.lor 0x80 midiChannel, notePitches i, 0⟩,
       Action.midiFlush, Action.digitalWrite redLED LOW]) ∧
    Nat.lor 0x90 midiChannel / 16 = 0x9 ∧ Nat.lor 0x90 midiChannel % 16 = midiChannel ∧
    Nat.lor 0x80 midiChannel / 16 = 0x8 ∧ Nat.lor 0x80 midiChannel % 16 = midiChannel ∧
    midiVelocity = 64 ∧ midiVelocity ≤ 127 :=
  ⟨rfl, rfl, by decide, by decide, by decide, by decide, rfl, by decide⟩

/-- C5: in Keyboard mode a Down event for pedal i results in exactly one
press call with the key code assigned to pedal i, and the matching Up event
in exactly one release call with the same key code. -/
theorem c5_keyboard_press_release (i : Fin NUM_PEDALS) :
    (dispatch (some HandlerTag.keyboardDown) (some HandlerTag.keyboardUp)
        ⟨i, Direction.down⟩ = [Action.keyPress (pedalKeys i)]) ∧
    (dispatch (some HandlerTag.keyboardDown) (some HandlerTag.keyboardUp)
        ⟨i, Direction.up⟩ = [Action.keyRelease (pedalKeys i)]) ∧
    handleKeyboardDown i = [Action.keyPress (pedalKeys i)] ∧
    handleKeyboardUp i = [Action.keyRelease (pedalKeys i)] :=
  ⟨rfl, rfl, rfl, rfl⟩

/-- C7: once a cycle has observed a read for pedal i, further cycles whose
reads for pedal i all equal that read produce no event at all for pedal i. -/
theorem c7_steady_pedal_no_events (s : BoardState) (r : Nat → Nat)
    (rs : List (Nat → Nat)) (i : Fin NUM_PEDALS)
    (hconst : ∀ r2 ∈ rs, r2 (pedalInputs i) = r (pedalInputs i)) :
    ∀ evs ∈ runEvents (loop r s).1 rs, ∀ d : Direction, (⟨i, d⟩ : Event) ∉ evs :=
  runEvents_not_mem i (r (pedalInputs i)) rs (loop r s).1
    (loop_pedalValues r s i) hconst

/-- C8: within one poll cycle the emitted events are exactly one per changed
pedal, listed in strictly increasing pedal-index order, and the loop body
dispatches them as separate consecutive handler invocations. -/
theorem c8_events_in_index_order (s : BoardState) (read : Nat → Nat) :
    ((cycleEvents s.pedalValues read).map Event.idx =
      (List.finRange NUM_PEDALS).filter
        (fun i => decide (s.pedalValues i ≠ read (pedalInputs i)))) ∧
    List.Pairwise (fun a b : Fin NUM_PEDALS => a < b)
      ((cycleEvents s.pedalValues read).map Event.idx) ∧
    ((loop read s).2 =
      (cycleEvents s.pedalValues read).flatMap
        (dispatch s.buttonDownHandler s.buttonUpHandler)) := by
  refine ⟨map_idx_filterMap s.pedalValues read (List.finRange NUM_PEDALS), ?_,
    loop_trace read s⟩
  unfold cycleEvents
  rw [map_idx_filterMap s.pedalValues read (List.finRange NUM_PEDALS)]
  exact (List.pairwise_lt_finRange NUM_PEDALS).filter _

/-- C9: an event whose matching handler slot is unbound is silently dropped,
producing no action, while the cycle still overwrites the cached previous
state for that pedal with the current read. -/
theorem c9_unbound_slot_dropped (s : BoardState) (read : Nat → Nat) (e : Event)
    (he : e ∈ cycleEvents s.pedalValues read)
    (hnone : (match e.dir with
              | Direction.down => s.buttonDownHandler
              | Direction.up => s.buttonUpHandler) = none) :
    dispatch s.buttonDownHandler s.buttonUpHandler e = [] ∧
    (loop read s).1.pedalValues e.idx = read (pedalInputs e.idx) := by
  refine ⟨?_, loop_pedalValues read s e.idx⟩
  unfold dispatch
  cases hd : e.dir with
  | down =>
    rw [hd] at hnone
    have h2 : s.buttonDownHandler = none := hnone
    show (match s.buttonDownHandler with
          | some h => runHandler h e.idx
          | none => []) = []
    rw [h2]
  | up =>
    rw [hd] at hnone
    have h2 : s.buttonUpHandler = none := hnone
    show (match s.buttonUpHandler with
          | some h => runHandler h e.idx
          | none => []) = []
    rw [h2]

/-- C9 witness: with both handler slots NULL, the initial press of pedal 0
yields an event that is dropped with no action while the cache updates. -/
theorem c9_unbound_slot_dropped_witness :
    ((⟨0, Direction.down⟩ : Event) ∈
      cycleEvents initialState.pedalValues (fun _ => 0)) ∧
    ((match (⟨0, Direction.down⟩ : Event).dir with
      | Direction.down => initialState.buttonDownHandler
      | Direction.up => initialState.buttonUpHandler) = none) ∧
    (dispatch initialState.buttonDownHandler initialState.buttonUpHandler
        ⟨0, Direction.down⟩ = [] ∧
     (loop (fun _ => 0) initialState).1.pedalValues (⟨0, Direction.down⟩ : Event).idx =
       (fun _ => (0 : Nat)) (pedalInputs (⟨0, Direction.down⟩ : Event).idx)) :=
  ⟨by decide, by decide,
   c9_unbound_slot_dropped initialState (fun _ => 0) ⟨0, Direction.down⟩
     (by decide) (by decide)⟩

/-- C7 witness: pedal 0 held pressed at a steady read across consecutive
cycles produces no events after the cycle reporting the initial edge. -/
theorem c7_steady_pedal_no_events_witness :
    (∀ r2 ∈ [fun _ => (0 : Nat)],
      r2 (pedalInputs (0 : Fin NUM_PEDALS)) =
        (fun _ => (0 : Nat)) (pedalInputs (0 : Fin NUM_PEDALS))) ∧
    (∀ evs ∈ runEvents (loop (fun _ => (0 : Nat)) initialState).1 [fun _ => (0 : Nat)],
      ∀ d : Direction, (⟨0, d⟩ : Event) ∉ evs) :=
  ⟨by decide,
   c7_steady_pedal_no_events initialState (fun _ => 0) [fun _ => 0] 0 (by decide)⟩

/-- C10: pedals 0 and 12 are both assigned pitchC3, so their note-on traces
are byte-for-byte identical and so are their note-off traces: the MIDI
output cannot distinguish the two pedals. -/
theorem c10_pedal0_pedal12_same_pitch :
    notePitches 0 = pitchC3 ∧ notePitches 12 = pitchC3 ∧
    handleMidiDown 0 = handleMidiDown 12 ∧ handleMidiUp 0 = handleMidiUp 12 :=
  ⟨rfl, rfl, rfl, rfl⟩

/-- The keyboard action the bound keyboard handler emits for pedal i in the
given direction. -/
def dirToKeyAction (i : Fin NUM_PEDALS) : Direction → Action
  | Direction.down => Action.keyPress (pedalKeys i)
  | Direction.up => Action.keyRelease (pedalKeys i)

/-- Recognize the press and release calls carrying the key code of pedal i. -/
def isKeyActionFor (i : Fin NUM_PEDALS) (a : Action) : Bool :=
  decide (a = Action.keyPress (pedalKeys i)) || decide (a = Action.keyRelease (pedalKeys i))

def flipDir : Direction → Direction
  | Direction.down => Direction.up
  | Direction.up => Direction.down

/-- Directions of the transition events a single pedal generates across a
run, given its cached value and the sequence of values read for it. -/
def pedalDirs (prev : Nat) : List Nat → List Direction
  | [] => []
  | v :: rest =>
    (if prev ≠ v then [if v = 0 then Direction.down else Direction.up] else []) ++
      pedalDirs v rest

/-- The direction list strictly alternates, the first argument being the
direction the next event must have. -/
def dirsAlternate : Direction → List Direction → Bool
  | _, [] => true
  | d, e :: rest => decide (e = d) && dirsAlternate (flipDir d) rest

/-- The action list strictly alternates between press and release of pedal
the pedal key code, the first argument giving the expected next direction. -/
def altKeyActions (i : Fin NUM_PEDALS) : Direction → List Action → Bool
  | _, [] => true
  | d, a :: rest => decide (a = dirToKeyAction i d) && altKeyActions i (flipDir d) rest

lemma pedalKeys_injective : ∀ i j : Fin NUM_PEDALS, pedalKeys i = pedalKeys j → i = j := by
  decide

lemma isKeyActionFor_dirToKeyAction (i j : Fin NUM_PEDALS) (d : Direction) :
    isKeyActionFor i (dirToKeyAction j d) = decide (j = i) := by
  cases d <;>
  · simp only [dirToKeyAction, isKeyActionFor]
    by_cases hji : j = i
    · subst hji
      simp
    · have hk : ¬ pedalKeys j = pedalKeys i := fun h => hji (pedalKeys_injective j i h)
      simp [hji, hk]

lemma dispatch_keyboard (e : Event) :
    dispatch (some HandlerTag.keyboardDown) (some HandlerTag.keyboardUp) e =
      [dirToKeyAction e.idx e.dir] := by
  cases e with
  | mk i d => cases d <;> rfl

lemma filter_key_bind (i : Fin NUM_PEDALS) (evs : List Event) :
    ((evs.flatMap (dispatch (some HandlerTag.keyboardDown)
        (some HandlerTag.keyboardUp))).filter (isKeyActionFor i)) =
      (evs.filter (fun e => decide (e.idx = i))).map (fun e => dirToKeyAction i e.dir) := by
  induction evs with
  | nil => rfl
  | cons e rest ih =>
    rw [List.flatMap_cons, dispatch_keyboard, List.filter_append, ih, List.filter_cons]
    by_cases hei : e.idx = i
    · subst hei
      simp [isKeyActionFor_dirToKeyAction]
    · simp [isKeyActionFor_dirToKeyAction, hei]

lemma run_filter_key (i : Fin NUM_PEDALS) (rs : List (Nat → Nat)) :
    ∀ s : BoardState, s.buttonDownHandler = some HandlerTag.keyboardDown →
      s.buttonUpHandler = some HandlerTag.keyboardUp →
      ((run s rs).2.filter (isKeyActionFor i)) =
        (pedalDirs (s.pedalValues i) (rs.map (fun r => r (pedalInputs i)))).map
          (dirToKeyAction i) := by
  induction rs with
  | nil => intro s _ _; rfl
  | cons r rest ih =>
    intro s hdown hup
    simp only [run, List.map_cons, pedalDirs]
    rw [List.filter_append, loop_trace, hdown, hup, filter_key_bind,
      filter_idx_cycleEvents,
      ih (loop r s).1 ((loop_handlers r s).1.trans hdown) ((loop_handlers r s).2.1.trans hup),
      loop_pedalValues, List.map_append]
    congr 1
    by_cases hv : s.pedalValues i ≠ r (pedalInputs i)
    · rw [(eventFor_eq_some s.pedalValues r i
        ⟨i, if r (pedalInputs i) = 0 then Direction.down else Direction.up⟩).mpr ⟨hv, rfl⟩,
        if_pos hv]
      rfl
    · rw [(eventFor_eq_none s.pedalValues r i).mpr (not_not.mp hv), if_neg hv]
      rfl

lemma pedalDirs_alternate (vals : List Nat) :
    ∀ prev : Nat, (prev = 0 ∨ prev = 1) → (∀ v ∈ vals, v = 0 ∨ v = 1) →
      dirsAlternate (if prev = 0 then Direction.up else Direction.down)
        (pedalDirs prev vals) = true := by
  induction vals with
  | nil => intro prev _ _; rfl
  | cons v rest ih =>
    intro prev hprev hvals
    have hv : v = 0 ∨ v = 1 := hvals v (List.mem_cons_self v rest)
    have hrest : ∀ v2 ∈ rest, v2 = 0 ∨ v2 = 1 := fun v2 h =>
      hvals v2 (List.mem_cons_of_mem v h)
    simp only [pedalDirs]
    by_cases hpv : prev ≠ v
    · rw [if_pos hpv]
      rcases hprev with h0 | h1
      · rcases hv with hv0 | hv1
        · exact absurd (h0.trans hv0.symm) hpv
        · subst h0
          subst hv1
          have h2 := ih 1 (Or.inr rfl) hrest
          rw [if_neg (by decide : ¬ (1 : Nat) = 0)] at h2
          simp [dirsAlternate, flipDir, h2]
      · rcases hv with hv0 | hv1
        · subst h1
          subst hv0
          have h2 := ih 0 (Or.inl rfl) hrest
          rw [if_pos rfl] at h2
          simp [dirsAlternate, flipDir, h2]
        · exact absurd (h1.trans hv1.symm) hpv
    · have hpe : prev = v := not_not.mp hpv
      rw [if_neg hpv, List.nil_append, hpe]
      have h2 := ih v (hpe ▸ hprev) hrest
      rw [← hpe] at h2 ⊢
      exact h2

lemma altKeyActions_map (i : Fin NUM_PEDALS) (dirs : List Direction) :
    ∀ d : Direction, dirsAlternate d dirs = true →
      altKeyActions i d (dirs.map (dirToKeyAction i)) = true := by
  induction dirs with
  | nil => intro d _; rfl
  | cons e rest ih =>
    intro d h
    simp only [dirsAlternate, Bool.and_eq_true, decide_eq_true_eq] at h
    obtain ⟨rfl, h2⟩ := h
    simp only [List.map_cons, altKeyActions, Bool.and_eq_true, decide_eq_true_eq]
    exact ⟨trivial, ih (flipDir e) h2⟩

/-- C6: starting from the post-setup Keyboard-mode state with all pedals
cached as released, for every pedal i and every run of binary pin reads the
press and release calls carrying the key code of pedal i strictly alternate and
begin with a press. -/
theorem c6_press_release_alternate (i : Fin NUM_PEDALS) (rs : List (Nat → Nat))
    (hbin : ∀ r ∈ rs, ∀ j : Fin NUM_PEDALS,
      r (pedalInputs j) = 0 ∨ r (pedalInputs j) = 1) :
    altKeyActions i Direction.down
      (((run (setup LOW).1 rs).2).filter (isKeyActionFor i)) = true := by
  have hdown : (setup LOW).1.buttonDownHandler = some HandlerTag.keyboardDown := rfl
  have hup : (setup LOW).1.buttonUpHandler = some HandlerTag.keyboardUp := rfl
  rw [run_filter_key i rs (setup LOW).1 hdown hup]
  have hprev : (setup LOW).1.pedalValues i = 1 := rfl
  rw [hprev]
  have hvals : ∀ v ∈ rs.map (fun r => r (pedalInputs i)), v = 0 ∨ v = 1 := by
    intro v hvm
    rcases List.mem_map.mp hvm with ⟨r, hr, rfl⟩
    exact hbin r hr i
  have h2 := pedalDirs_alternate (rs.map (fun r => r (pedalInputs i))) 1 (Or.inr rfl) hvals
  rw [if_neg (by decide : ¬ (1 : Nat) = 0)] at h2
  exact altKeyActions_map i _ Direction.down h2

/-- C6 witness: pressing then releasing pedal 0 from the Keyboard-mode boot
state yields an alternating press-release action sequence. -/
theorem c6_press_release_alternate_witness :
    (∀ r ∈ [fun _ => (0 : Nat), fun _ => (1 : Nat)], ∀ j : Fin NUM_PEDALS,
      r (pedalInputs j) = 0 ∨ r (pedalInputs j) = 1) ∧
    altKeyActions 0 Direction.down
      (((run (setup LOW).1 [fun _ => (0 : Nat), fun _ => (1 : Nat)]).2).filter
        (isKeyActionFor 0)) = true :=
  ⟨by decide,
   c6_press_release_alternate 0 [fun _ => (0 : Nat), fun _ => (1 : Nat)] (by decide)⟩

end PedalBoard
